import Mathlib

/-!
# Verification of the wolfictl `build` scheduler

A shallow embedding, in Lean 4, of the concurrent DAG build scheduler
implemented in the `cli` package (file `src/unnamed/part_000`): the
utility predicates (`filterArchs`, `pkgver`, the index-probe map), the
per-architecture classification loop of `task.build`, the control flow of
`task.start` / `task.maybeStart` (modelled as event traces), the
admission-control semantics of the job semaphore (modelled as a
small-step transition system), and the completion-aggregation loop of
`buildAll` (modelled as a pure fold over the arrival order of
completions).  Theorems at the end settle the specified properties
against these definitions.
-/

namespace Wolfictl

/-! ## Utility functions (source: `pkgver`, `logdir`, `filterArchs`) -/

/-- Embeds `pkgver` (source lines 721-723):
`fmt.Sprintf("%s-%s-r%d", pkgCfg.Name, pkgCfg.Version, pkgCfg.Epoch)`. -/
def pkgver (name version : String) (epoch : Nat) : String :=
  name ++ "-" ++ version ++ "-r" ++ toString epoch

/-- Embeds `logdir` (source lines 725-727): `filepath.Join(path, arch, "buildlogs")`. -/
def logdir (path arch : String) : String :=
  path ++ "/" ++ arch ++ "/buildlogs"

/-- Embeds `filterArchs` (source lines 688-706).  The Go function clones
`archs`, returns the clone whole when `len(targets) == 0 || targets[0] == "all"`,
and otherwise runs `slices.DeleteFunc` with a predicate that deletes any
arch matching no element of `targets` — i.e. it keeps exactly the archs
that occur in `targets`, in the order of `archs`. -/
def filterArchs (archs targets : List String) : List String :=
  if targets.isEmpty || targets.head! == "all" then
    archs
  else
    archs.filter (fun arch => targets.any (fun want => arch == want))

/-! ## Architecture normalization (external collaborator)

`buildAll` keys the published-artifact map by
`types.ParseArchitecture(arch).ToAPK()` (source line 242), while
`task.build` looks that map up by the raw flag string (source line 548).
The composite normalization lives in the external apko library
(`chainguard.dev/apko/pkg/build/types`), not in this repository. -/

/-- The alias table of the external apko normalization: pairs
`(input, APK name)` for every input the library recognizes. -/
def apkArchTable : List (String × String) :=
  [("386", "x86"), ("amd64", "x86_64"), ("arm64", "aarch64"),
   ("arm/v6", "armhf"), ("armhf", "armhf"), ("arm/v7", "armv7"),
   ("armv7", "armv7"), ("ppc64le", "ppc64le"), ("s390x", "s390x"),
   ("riscv64", "riscv64"), ("loong64", "loong64"), ("x86", "x86"),
   ("x86_64", "x86_64"), ("aarch64", "aarch64")]

/-- Models the external apko composite `types.ParseArchitecture(s).ToAPK()`:
known GOARCH-style aliases are canonicalized to APK architecture names,
and any unrecognized string is returned unchanged. -/
def parseArchToAPK (s : String) : String :=
  match apkArchTable.find? (fun p => p.1 == s) with
  | some p => p.2
  | none => s

theorem parseArchToAPK_idem (s : String) :
    parseArchToAPK (parseArchToAPK s) = parseArchToAPK s := by
  cases hf : apkArchTable.find? (fun p => p.1 == s) with
  | none =>
    have h : parseArchToAPK s = s := by simp only [parseArchToAPK, hf]
    rw [h]
    exact h
  | some p =>
    have h : parseArchToAPK s = p.2 := by simp only [parseArchToAPK, hf]
    rw [h]
    have hmem : p ∈ apkArchTable := List.mem_of_find?_eq_some hf
    have htab : apkArchTable.all (fun q => parseArchToAPK q.2 == q.2) = true := by decide
    exact of_decide_eq_true (List.all_eq_true.mp htab p hmem)

/-- Embeds the index-probe map assembly of `buildAll` (source lines
219-246): for each element of the `--arch` flag list, the fetched
published-set is stored under the key `types.ParseArchitecture(arch).ToAPK()`.
The map is modelled as an association list from arch key to the list of
published artifact filenames. -/
def probeMap (archs : List String) (fetched : String → List String) :
    List (String × List String) :=
  archs.map (fun a => (parseArchToAPK a, fetched a))

/-- Embeds the already-published lookup of `task.build` (source line 548):
`_, ok := t.cfg.exists[arch][apkFile]`.  A missing arch key in Go yields a
nil inner map, in which the lookup misses. -/
def lookupExists (m : List (String × List String)) (arch apkFile : String) : Bool :=
  match m.find? (fun p => p.1 == arch) with
  | some p => p.2.contains apkFile
  | none => false

/-! ## Per-architecture classification (source: `task.build`, lines 535-567) -/

/-- Embeds the classification loop of `task.build` (source lines 543-562):
for each effective arch, an already-published arch (`exists[arch][apkFile]`
hit) is recorded in neither set; otherwise the arch is recorded in
`needsIndex`, and additionally in `needsBuild` unless the artifact already
exists on disk (`os.Stat(apkPath) == nil`).  The Go sets are
`map[string]bool`; we return the lists of archs inserted, in loop order. -/
def classify (archs : List String) (published localBuilt : String → Bool) :
    List String × List String :=
  match archs with
  | [] => ([], [])
  | arch :: rest =>
    let r := classify rest published localBuilt
    if published arch then r
    else if localBuilt arch then (r.1, arch :: r.2)
    else (arch :: r.1, arch :: r.2)

theorem classify_cons_published {arch : String} {published localBuilt : String → Bool}
    (rest : List String) (h : published arch = true) :
    classify (arch :: rest) published localBuilt = classify rest published localBuilt := by
  simp [classify, h]

theorem classify_cons_local {arch : String} {published localBuilt : String → Bool}
    (rest : List String) (h : published arch = false) (h2 : localBuilt arch = true) :
    classify (arch :: rest) published localBuilt =
      ((classify rest published localBuilt).1,
        arch :: (classify rest published localBuilt).2) := by
  simp [classify, h, h2]

theorem classify_cons_build {arch : String} {published localBuilt : String → Bool}
    (rest : List String) (h : published arch = false) (h2 : localBuilt arch = false) :
    classify (arch :: rest) published localBuilt =
      (arch :: (classify rest published localBuilt).1,
        arch :: (classify rest published localBuilt).2) := by
  simp [classify, h, h2]

theorem mem_classify_needsIndex (archs : List String)
    (published localBuilt : String → Bool) (a : String) :
    a ∈ (classify archs published localBuilt).2 ↔
      a ∈ archs ∧ published a = false := by
  induction archs with
  | nil => simp [classify]
  | cons arch rest ih =>
    cases hp : published arch with
    | true =>
      rw [classify_cons_published rest hp, ih]
      simp only [List.mem_cons]
      constructor
      · rintro ⟨h1, h2⟩
        exact ⟨Or.inr h1, h2⟩
      · rintro ⟨rfl | h1, h2⟩
        · rw [hp] at h2; cases h2
        · exact ⟨h1, h2⟩
    | false =>
      cases hl : localBuilt arch with
      | true =>
        rw [classify_cons_local rest hp hl]
        simp only [List.mem_cons, ih]
        constructor
        · rintro (rfl | ⟨h1, h2⟩)
          · exact ⟨Or.inl rfl, hp⟩
          · exact ⟨Or.inr h1, h2⟩
        · rintro ⟨rfl | h1, h2⟩
          · exact Or.inl rfl
          · exact Or.inr ⟨h1, h2⟩
      | false =>
        rw [classify_cons_build rest hp hl]
        simp only [List.mem_cons, ih]
        constructor
        · rintro (rfl | ⟨h1, h2⟩)
          · exact ⟨Or.inl rfl, hp⟩
          · exact ⟨Or.inr h1, h2⟩
        · rintro ⟨rfl | h1, h2⟩
          · exact Or.inl rfl
          · exact Or.inr ⟨h1, h2⟩

theorem mem_classify_needsBuild (archs : List String)
    (published localBuilt : String → Bool) (a : String) :
    a ∈ (classify archs published localBuilt).1 ↔
      a ∈ archs ∧ published a = false ∧ localBuilt a = false := by
  induction archs with
  | nil => simp [classify]
  | cons arch rest ih =>
    cases hp : published arch with
    | true =>
      rw [classify_cons_published rest hp, ih]
      simp only [List.mem_cons]
      constructor
      · rintro ⟨h1, h2⟩
        exact ⟨Or.inr h1, h2⟩
      · rintro ⟨rfl | h1, h2, h3⟩
        · rw [hp] at h2; cases h2
        · exact ⟨h1, h2, h3⟩
    | false =>
      cases hl : localBuilt arch with
      | true =>
        rw [classify_cons_local rest hp hl]
        simp only [List.mem_cons, ih]
        constructor
        · rintro ⟨h1, h2, h3⟩
          exact ⟨Or.inr h1, h2, h3⟩
        · rintro ⟨rfl | h1, h2, h3⟩
          · rw [hl] at h3; cases h3
          · exact ⟨h1, h2, h3⟩
      | false =>
        rw [classify_cons_build rest hp hl]
        simp only [List.mem_cons, ih]
        constructor
        · rintro (rfl | ⟨h1, h2, h3⟩)
          · exact ⟨Or.inl rfl, hp, hl⟩
          · exact ⟨Or.inr h1, h2, h3⟩
        · rintro ⟨rfl | h1, h2, h3⟩
          · exact Or.inl rfl
          · exact Or.inr ⟨h1, h2, h3⟩

/-! ## Event-trace model of `task.start` / `task.build` / `task.buildArch`

The observable actions of one Task execution, in program order.  The
cancellation status of the root context is modelled as a boolean that is
constant for the Task (Go contexts, once cancelled, stay cancelled), so a
`true` value represents a Task whose dependency waits resolved at or
after the cancellation. -/

/-- Observable events of one Task execution. -/
inductive Ev
  /-- `t.cfg.jobch <- struct{}{}` (source line 441). -/
  | acquirePermit
  /-- `<-t.cfg.jobch` in the deferred release (source line 442). -/
  | releasePermit
  /-- `bc.BuildPackage(fctx)` for one arch (source line 517). -/
  | invokeDriver (arch : String)
  /-- `idx.GenerateIndex(ctx)` for one arch (source line 630). -/
  | invokeIndex (arch : String)
  /-- `t.done = true` in the deferred epilogue (source line 419). -/
  | markDone
  /-- `t.cond.Broadcast()` in the deferred epilogue (source line 420). -/
  | broadcast
  /-- `t.cfg.donech <- t` in the deferred epilogue (source line 422). -/
  | send
  deriving DecidableEq, Repr

/-- The inputs of one per-Task build step (`task.build`): the global and
recipe-target arch lists, the two classification predicates (published
lookup hit, local artifact present), the configuration flags, the
cancellation status of the context, and the outcome of the external
build driver per (normalized) arch, `none` meaning success. -/
structure BuildInput where
  archs : List String
  targets : List String
  published : String → Bool
  localBuilt : String → Bool
  dryrun : Bool
  generateIndex : Bool
  cancelled : Bool
  driverResult : String → Option String
  logfile : String → String

/-- Embeds `task.buildArch` (source lines 448-533) for one arch: the
context is checked first (line 449) and its error returned before any
runner or build driver is constructed; otherwise the external driver runs
and a failure is wrapped as
`building package (see "{logfile}" for logs): {err}` (line 529). -/
def buildArchModel (i : BuildInput) (arch : String) : Option String × List Ev :=
  if i.cancelled then (some "context canceled", [])
  else
    match i.driverResult arch with
    | some e =>
      (some ("building package (see \"" ++ i.logfile arch ++ "\" for logs): " ++ e),
        [Ev.invokeDriver arch])
    | none => (none, [Ev.invokeDriver arch])

/-- Embeds the `for arch := range needsBuild` loop of `task.build`
(source lines 569-580): each arch is re-normalized (line 570), a dry run
only logs (lines 572-575), and the first `buildArch` error is returned
immediately. -/
def buildLoop (i : BuildInput) : List String → Option String × List Ev
  | [] => (none, [])
  | arch :: rest =>
    let a := parseArchToAPK arch
    if i.dryrun then buildLoop i rest
    else
      match buildArchModel i a with
      | (some e, evs) => (some e, evs)
      | (none, evs) =>
        let r := buildLoop i rest
        (r.1, evs ++ r.2)

/-- Embeds the `for arch := range needsIndex` loop of `task.build`
(source lines 589-633): under the global mutex, a dry run only logs,
and otherwise the index generator is invoked per arch. -/
def indexLoop (dryrun : Bool) : List String → List Ev
  | [] => []
  | arch :: rest =>
    if dryrun then indexLoop dryrun rest
    else Ev.invokeIndex arch :: indexLoop dryrun rest

/-- Result of one `task.build` (or whole `task.start`) execution:
the Task's `err` and `skipped` fields and the emitted events. -/
structure BuildOut where
  err : Option String
  skipped : Bool
  events : List Ev
  deriving Repr

/-- Embeds `task.build` (source lines 535-638): filter the arch list,
classify every arch, return with `t.skipped = true` when both sets are
empty (lines 564-567), otherwise run the build loop, stop on its first
error, and run the index loop unless `--generate-index` is off. -/
def buildModel (i : BuildInput) : BuildOut :=
  let effArchs := filterArchs i.archs i.targets
  let c := classify effArchs i.published i.localBuilt
  if c.1.isEmpty && c.2.isEmpty then
    { err := none, skipped := true, events := [] }
  else
    match buildLoop i c.1 with
    | (some e, evs) => { err := some e, skipped := false, events := evs }
    | (none, evs) =>
      if !i.generateIndex then { err := none, skipped := false, events := evs }
      else { err := none, skipped := false, events := evs ++ indexLoop i.dryrun c.2 }

/-- The inputs of one `task.start` execution: the outcomes of the
dependency waits, in the order the `for _, dep := range t.deps` loop
visits them, and the build-step inputs. -/
structure StartInput where
  depErrs : List (Option String)
  bi : BuildInput

/-- The first dependency error encountered by the wait loop of
`task.start` (source lines 433-438). -/
def firstErr : List (Option String) → Option String
  | [] => none
  | some e :: _ => some e
  | none :: rest => firstErr rest

/-- Embeds `task.start` (source lines 415-446).  The deferred epilogue
(mark done, broadcast the latch, send on the completion channel) runs on
every exit path; on the dependency-error path the body returns before
the permit is acquired; otherwise the permit is acquired, the build step
runs, and the permit is released (the inner defer fires before the outer
one). -/
def startModel (s : StartInput) : BuildOut :=
  match firstErr s.depErrs with
  | some e =>
    { err := some e, skipped := false,
      events := [Ev.markDone, Ev.broadcast, Ev.send] }
  | none =>
    let b := buildModel s.bi
    { err := b.err, skipped := b.skipped,
      events := Ev.acquirePermit :: b.events ++
        [Ev.releasePermit, Ev.markDone, Ev.broadcast, Ev.send] }

/-- Embeds `task.maybeStart` (source lines 641-649): under the latch
lock, a Task not yet started is flipped to started and its `start`
spawned; an already-started Task does nothing. -/
def maybeStartEvents (alreadyStarted : Bool) (s : StartInput) : List Ev :=
  if alreadyStarted then [] else (startModel s).events

/-! ## Lazy start closure

`task.start` begins by calling `maybeStart` on every dependency (source
lines 425-427), and `buildAll` calls `maybeStart` on every selected Task
(source lines 310-312).  The set of Tasks that ever enter the started
state is therefore the least set containing the selection and closed
under the dependency edges. -/

/-- The Tasks that enter the started state when `buildAll` runs with
selection `args` over the dependency function `deps` (mirroring
`t.deps`): every selected Task is started (source line 311), and a
started Task starts each of its dependencies (source line 426). -/
inductive Started (deps : String → List String) (args : List String) : String → Prop
  | select {p : String} : p ∈ args → Started deps args p
  | dep {p d : String} : Started deps args p → d ∈ deps p → Started deps args d

/-! ## Completion aggregation (source: `buildAll`, lines 297-353) -/

/-- One message on the completion channel: the Task's package name and
its `err` and `skipped` fields at the time of the send. -/
structure Completion where
  pkg : String
  err : Option String
  skipped : Bool
  deriving DecidableEq, Repr

/-- The log lines the aggregation loop can emit (source lines 327, 337,
341, 345). -/
inductive LogLine
  /-- `Failed to build {pkg} ({k}/{n})`. -/
  | failed (pkg : String) (k n : Nat)
  /-- `Skipped building {m} packages`. -/
  | skippedSummary (m : Nat)
  /-- `Finished building {pkg} ({k}/{n})`. -/
  | finished (pkg : String) (k n : Nat)
  deriving DecidableEq, Repr

/-- The error string appended for a failed completion (source line 326):
`fmt.Errorf("failed to build %s: %w", t.pkg, err)`. -/
def wrapErr (pkg e : String) : String :=
  "failed to build " ++ pkg ++ ": " ++ e

/-- The mutable state of the aggregation loop in `buildAll`:
the outstanding selected Tasks (`todos`), the fixed selection size
(`count`, source line 313), the collected errors, the pending skipped
counter, and the log emitted so far. -/
structure AggState where
  todos : List String
  count : Nat
  errs : List String
  skipped : Nat
  log : List LogLine
  deriving Repr

/-- Embeds one iteration of the aggregation loop (source lines 321-342):
delete the received package from `todos`; on error append to the error
list and log `Failed to build`; on a skipped success only bump the
counter; on a built success flush a pending skipped counter and log
`Finished building` with `count-(len(todos)+len(errs))` as the numerator
(source line 341, with `todos` already shrunk). -/
def aggStep (s : AggState) (c : Completion) : AggState :=
  let todos := s.todos.erase c.pkg
  match c.err with
  | some e =>
    let errs := s.errs ++ [wrapErr c.pkg e]
    { todos := todos, count := s.count, errs := errs, skipped := s.skipped,
      log := s.log ++ [LogLine.failed c.pkg errs.length s.count] }
  | none =>
    if c.skipped then
      { todos := todos, count := s.count, errs := s.errs,
        skipped := s.skipped + 1, log := s.log }
    else
      let log :=
        if s.skipped != 0 then s.log ++ [LogLine.skippedSummary s.skipped]
        else s.log
      { todos := todos, count := s.count, errs := s.errs, skipped := 0,
        log := log ++
          [LogLine.finished c.pkg (s.count - (todos.length + s.errs.length)) s.count] }

/-- Embeds the `for len(todos) != 0` receive loop (source lines
321-342) over the arrival order of completions: process messages until
`todos` is empty, returning the final state and the number of messages
consumed.  An exhausted arrival list with a non-empty `todos` models the
program blocking on the channel; the theorems below only use arrival
lists that cover the selection. -/
def aggLoop (s : AggState) : List Completion → AggState × Nat
  | [] => (s, 0)
  | c :: rest =>
    if s.todos.isEmpty then (s, 0)
    else
      let r := aggLoop (aggStep s c) rest
      (r.1, r.2 + 1)

/-- The aggregation phase of `buildAll` (source lines 310-353): start
from the selection, drain the arrival list, flush a trailing skipped
counter (source lines 344-346), and compute the returned error: under a
cancelled context a single
`failed to build {len(errs)} packages: {cause}` error (source lines
349-351), otherwise `errors.Join` of the collected errors (source line
353), which is `nil` for an empty list. -/
def buildAllAgg (cancelled : Bool) (cause : String) (selected : List String)
    (arrivals : List Completion) : AggState × Nat × Option String :=
  let s0 : AggState :=
    { todos := selected, count := selected.length, errs := [], skipped := 0, log := [] }
  let r := aggLoop s0 arrivals
  let s := r.1
  let log :=
    if s.skipped != 0 then s.log ++ [LogLine.skippedSummary s.skipped] else s.log
  let s := { s with log := log }
  let ret :=
    if cancelled then
      some ("failed to build " ++ toString s.errs.length ++ " packages: " ++ cause)
    else if s.errs.isEmpty then none
    else some (String.intercalate "\n" s.errs)
  (s, r.2, ret)

/-! ## Small-step model of the job semaphore

`cmdBuild` sizes the job channel (source lines 78-82): `--jobs 0`
defaults to `runtime.GOMAXPROCS(0)` and `jobch` is a buffered channel of
that capacity, used as a counted semaphore.  Each Task goroutine runs
`task.start`; the interleaving of the goroutines is modelled as a
transition relation on the vector of per-Task phases plus the channel
occupancy.  A send on a buffered Go channel succeeds only while the
buffer holds fewer than `cap` elements, which is the `permits < J` guard
of the `acquire` step. -/

/-- Embeds the `--jobs` default of `cmdBuild` (source lines 78-80):
`if jobs == 0 { jobs = runtime.GOMAXPROCS(0) }`. -/
def effectiveJobs (jobs gomaxprocs : Nat) : Nat :=
  if jobs = 0 then gomaxprocs else jobs

/-- The phase of one Task goroutine inside `task.start`:
not yet spawned; started and at or before the dependency waits; holding
a job permit and inside `t.build` (between source lines 441 and 442);
returned (permit released if one was held). -/
inductive Phase
  | idle
  | waiting
  | building
  | finished
  deriving DecidableEq, Repr

/-- A global scheduler state: the phase of each of the `n` Tasks and the
occupancy of the `jobch` buffer. -/
structure SchedState (n : Nat) where
  phase : Fin n → Phase
  permits : Nat

/-- The initial state: no Task spawned, empty job channel. -/
def SchedState.init (n : Nat) : SchedState n :=
  { phase := fun _ => Phase.idle, permits := 0 }

/-- The interleaving steps of the Task goroutines, for job cap `J` and
dependency map `deps`:
`spawn` is `maybeStart` flipping a Task to started (source lines
645-647); `depExit` is the early return of `task.start` when a
dependency wait yields an error (source lines 433-438) — it reaches the
deferred epilogue without touching `jobch`; `acquire` is
`t.cfg.jobch <- struct{}{}` (source line 441), which can only proceed
once every dependency is finished (the waits of lines 433-438 have
returned) and while the buffer is below capacity; `finish` is the return
from `t.build` running the deferred `<-t.cfg.jobch` (source line
442). -/
inductive SchedStep (J : Nat) {n : Nat} (deps : Fin n → List (Fin n)) :
    SchedState n → SchedState n → Prop
  | spawn (s : SchedState n) (t : Fin n) :
      s.phase t = Phase.idle →
      SchedStep J deps s ⟨Function.update s.phase t Phase.waiting, s.permits⟩
  | depExit (s : SchedState n) (t : Fin n) :
      s.phase t = Phase.waiting →
      SchedStep J deps s ⟨Function.update s.phase t Phase.finished, s.permits⟩
  | acquire (s : SchedState n) (t : Fin n) :
      s.phase t = Phase.waiting →
      (∀ d ∈ deps t, s.phase d = Phase.finished) →
      s.permits < J →
      SchedStep J deps s ⟨Function.update s.phase t Phase.building, s.permits + 1⟩
  | finish (s : SchedState n) (t : Fin n) :
      s.phase t = Phase.building →
      SchedStep J deps s ⟨Function.update s.phase t Phase.finished, s.permits - 1⟩

/-- Reachability from the initial state. -/
def SchedReachable (J : Nat) {n : Nat} (deps : Fin n → List (Fin n))
    (s : SchedState n) : Prop :=
  Relation.ReflTransGen (SchedStep J deps) (SchedState.init n) s

/-- The number of Tasks currently inside their build step (holding a
job permit). -/
def buildingCount {n : Nat} (phase : Fin n → Phase) : Nat :=
  (Finset.univ.filter (fun t => phase t = Phase.building)).card

theorem buildingCount_update {n : Nat} (f : Fin n → Phase) (t : Fin n) (v : Phase) :
    buildingCount (Function.update f t v) + (if f t = Phase.building then 1 else 0)
      = buildingCount f + (if v = Phase.building then 1 else 0) := by
  classical
  simp only [buildingCount]
  rw [Finset.card_filter, Finset.card_filter]
  rw [Finset.sum_eq_sum_diff_singleton_add (Finset.mem_univ t),
    Finset.sum_eq_sum_diff_singleton_add (Finset.mem_univ t)
      (fun u => if f u = Phase.building then 1 else 0)]
  have hsame :
      (∑ u ∈ Finset.univ \ {t}, if Function.update f t v u = Phase.building then 1 else 0)
        = ∑ u ∈ Finset.univ \ {t}, if f u = Phase.building then 1 else 0 := by
    apply Finset.sum_congr rfl
    intro u hu
    have hut : u ≠ t := by
      simp only [Finset.mem_sdiff, Finset.mem_singleton] at hu
      exact hu.2
    rw [Function.update_noteq hut]
  rw [hsame]
  simp only [Function.update_same]
  omega

/-- The inductive invariant of the semaphore model: the channel
occupancy equals the number of Tasks inside the build step, it never
exceeds the capacity, and every Task inside the build step has all its
dependencies finished. -/
def SchedInv (J : Nat) {n : Nat} (deps : Fin n → List (Fin n)) (s : SchedState n) : Prop :=
  s.permits = buildingCount s.phase ∧ s.permits ≤ J ∧
    ∀ t : Fin n, s.phase t = Phase.building → ∀ d ∈ deps t, s.phase d = Phase.finished

theorem schedInv_init (J : Nat) {n : Nat} (deps : Fin n → List (Fin n)) :
    SchedInv J deps (SchedState.init n) := by
  refine ⟨?_, Nat.zero_le J, ?_⟩
  · simp [SchedState.init, buildingCount]
  · intro t ht
    simp [SchedState.init] at ht

theorem schedInv_step (J : Nat) {n : Nat} (deps : Fin n → List (Fin n))
    {s s' : SchedState n} (hinv : SchedInv J deps s) (hstep : SchedStep J deps s s') :
    SchedInv J deps s' := by
  obtain ⟨hcount, hcap, hdeps⟩ := hinv
  cases hstep with
  | spawn t ht =>
    have hc := buildingCount_update s.phase t Phase.waiting
    rw [ht] at hc
    simp only [reduceCtorEq, if_false] at hc
    refine ⟨by dsimp only; omega, by dsimp only; omega, ?_⟩
    intro u hu d hd
    dsimp only at hu ⊢
    rw [Function.update_apply] at hu
    rw [Function.update_apply]
    by_cases hut : u = t
    · rw [if_pos hut] at hu
      exact Phase.noConfusion hu
    · rw [if_neg hut] at hu
      have hfd := hdeps u hu d hd
      by_cases hdt : d = t
      · rw [hdt, ht] at hfd
        exact Phase.noConfusion hfd
      · rw [if_neg hdt]
        exact hfd
  | depExit t ht =>
    have hc := buildingCount_update s.phase t Phase.finished
    rw [ht] at hc
    simp only [reduceCtorEq, if_false] at hc
    refine ⟨by dsimp only; omega, by dsimp only; omega, ?_⟩
    intro u hu d hd
    dsimp only at hu ⊢
    rw [Function.update_apply] at hu
    rw [Function.update_apply]
    by_cases hut : u = t
    · rw [if_pos hut] at hu
      exact Phase.noConfusion hu
    · rw [if_neg hut] at hu
      have hfd := hdeps u hu d hd
      by_cases hdt : d = t
      · rw [if_pos hdt]
      · rw [if_neg hdt]
        exact hfd
  | acquire t ht hdone hlt =>
    have hc := buildingCount_update s.phase t Phase.building
    rw [ht] at hc
    simp only [reduceCtorEq, if_false, if_true] at hc
    refine ⟨by dsimp only; omega, by dsimp only; omega, ?_⟩
    intro u hu d hd
    dsimp only at hu ⊢
    rw [Function.update_apply] at hu
    rw [Function.update_apply]
    by_cases hut : u = t
    · have hdut : d ∈ deps t := by rw [hut] at hd; exact hd
      have hdu := hdone d hdut
      by_cases hdt : d = t
      · rw [hdt, ht] at hdu
        exact Phase.noConfusion hdu
      · rw [if_neg hdt]
        exact hdu
    · rw [if_neg hut] at hu
      have hfd := hdeps u hu d hd
      by_cases hdt : d = t
      · rw [hdt, ht] at hfd
        exact Phase.noConfusion hfd
      · rw [if_neg hdt]
        exact hfd
  | finish t ht =>
    have hc := buildingCount_update s.phase t Phase.finished
    rw [ht] at hc
    simp only [reduceCtorEq, if_false, if_true] at hc
    have hpos : 1 ≤ s.permits := by
      rw [hcount]
      simp only [buildingCount]
      have hmem : t ∈ Finset.univ.filter (fun u => s.phase u = Phase.building) := by
        simp [ht]
      calc 1 = ({t} : Finset (Fin n)).card := by simp
        _ ≤ _ := Finset.card_le_card (by simpa using hmem)
    refine ⟨by dsimp only; omega, by dsimp only; omega, ?_⟩
    intro u hu d hd
    dsimp only at hu ⊢
    rw [Function.update_apply] at hu
    rw [Function.update_apply]
    by_cases hut : u = t
    · rw [if_pos hut] at hu
      exact Phase.noConfusion hu
    · rw [if_neg hut] at hu
      have hfd := hdeps u hu d hd
      by_cases hdt : d = t
      · rw [if_pos hdt]
      · rw [if_neg hdt]
        exact hfd

theorem schedInv_reachable (J : Nat) {n : Nat} (deps : Fin n → List (Fin n))
    {s : SchedState n} (h : SchedReachable J deps s) : SchedInv J deps s := by
  induction h with
  | refl => exact schedInv_init J deps
  | tail _ hstep ih => exact schedInv_step J deps ih hstep

/-! ## Supporting lemmas -/

/-- Work events are the calls into the external build driver and index
generator; the permit and latch events are control events. -/
def Ev.isWork : Ev → Bool
  | Ev.invokeDriver _ => true
  | Ev.invokeIndex _ => true
  | _ => false

theorem buildArchModel_isWork (i : BuildInput) (arch : String) :
    ∀ ev ∈ (buildArchModel i arch).2, ev.isWork = true := by
  intro ev hev
  unfold buildArchModel at hev
  by_cases hc : i.cancelled
  · simp [hc] at hev
  · simp only [hc, if_neg, Bool.false_eq_true, if_false] at hev
    cases hd : i.driverResult arch <;>
      rw [hd] at hev <;> simp at hev <;> simp [hev, Ev.isWork]

theorem buildLoop_isWork (i : BuildInput) (l : List String) :
    ∀ ev ∈ (buildLoop i l).2, ev.isWork = true := by
  induction l with
  | nil => intro ev hev; simp [buildLoop] at hev
  | cons arch rest ih =>
    intro ev hev
    unfold buildLoop at hev
    by_cases hd : i.dryrun
    · rw [if_pos hd] at hev
      exact ih ev hev
    · rw [if_neg hd] at hev
      cases hb : buildArchModel i (parseArchToAPK arch) with
      | mk fst snd =>
        cases fst with
        | some e =>
          rw [hb] at hev
          simp only at hev
          have := buildArchModel_isWork i (parseArchToAPK arch)
          rw [hb] at this
          exact this ev hev
        | none =>
          rw [hb] at hev
          simp only [List.mem_append] at hev
          rcases hev with hev | hev
          · have := buildArchModel_isWork i (parseArchToAPK arch)
            rw [hb] at this
            exact this ev hev
          · exact ih ev hev

theorem indexLoop_isWork (d : Bool) (l : List String) :
    ∀ ev ∈ indexLoop d l, ev.isWork = true := by
  induction l with
  | nil => intro ev hev; simp [indexLoop] at hev
  | cons arch rest ih =>
    intro ev hev
    unfold indexLoop at hev
    by_cases hd : d
    · rw [if_pos hd] at hev
      exact ih ev hev
    · rw [if_neg hd] at hev
      rcases List.mem_cons.mp hev with rfl | hev
      · rfl
      · exact ih ev hev

theorem buildModel_isWork (i : BuildInput) :
    ∀ ev ∈ (buildModel i).events, ev.isWork = true := by
  intro ev hev
  unfold buildModel at hev
  set c := classify (filterArchs i.archs i.targets) i.published i.localBuilt with hc
  by_cases hemp : c.1.isEmpty && c.2.isEmpty
  · rw [if_pos hemp] at hev
    simp at hev
  · rw [if_neg hemp] at hev
    cases hb : buildLoop i c.1 with
    | mk fst snd =>
      have hw := buildLoop_isWork i c.1
      rw [hb] at hw
      cases fst with
      | some e =>
        rw [hb] at hev
        exact hw ev hev
      | none =>
        rw [hb] at hev
        simp only at hev
        by_cases hg : !i.generateIndex
        · rw [if_pos hg] at hev
          exact hw ev hev
        · rw [if_neg hg] at hev
          simp only [List.mem_append] at hev
          rcases hev with hev | hev
          · exact hw ev hev
          · exact indexLoop_isWork i.dryrun c.2 ev hev

/-- A cancelled context makes the build loop return before invoking the
driver on any arch: `buildArch` checks `ctx.Err()` first (source line
449). -/
theorem buildLoop_cancelled (i : BuildInput) (hcan : i.cancelled = true)
    (l : List String) : (buildLoop i l).2 = [] := by
  induction l with
  | nil => simp [buildLoop]
  | cons arch rest ih =>
    unfold buildLoop
    by_cases hd : i.dryrun
    · rw [if_pos hd]
      exact ih
    · rw [if_neg hd]
      have hb : buildArchModel i (parseArchToAPK arch) = (some "context canceled", []) := by
        unfold buildArchModel
        rw [hcan]
        simp
      rw [hb]

theorem mem_indexLoop_invokeIndex (d : Bool) (l : List String) (ev : Ev)
    (hev : ev ∈ indexLoop d l) : ∃ a, ev = Ev.invokeIndex a := by
  induction l with
  | nil => simp [indexLoop] at hev
  | cons arch rest ih =>
    unfold indexLoop at hev
    by_cases hd : d
    · rw [if_pos hd] at hev
      exact ih hev
    · rw [if_neg hd] at hev
      rcases List.mem_cons.mp hev with rfl | hev
      · exact ⟨arch, rfl⟩
      · exact ih hev

/-- A cancelled context lets no `bc.BuildPackage` call through in the
whole build step. -/
theorem buildModel_cancelled_no_driver (i : BuildInput) (hcan : i.cancelled = true)
    (a : String) : Ev.invokeDriver a ∉ (buildModel i).events := by
  intro hev
  unfold buildModel at hev
  set c := classify (filterArchs i.archs i.targets) i.published i.localBuilt with hc
  by_cases hemp : c.1.isEmpty && c.2.isEmpty
  · rw [if_pos hemp] at hev
    simp at hev
  · rw [if_neg hemp] at hev
    have hbl := buildLoop_cancelled i hcan c.1
    cases hb : buildLoop i c.1 with
    | mk fst snd =>
      rw [hb] at hbl hev
      simp only at hbl
      subst hbl
      cases fst with
      | some e => simp at hev
      | none =>
        simp only at hev
        by_cases hg : !i.generateIndex
        · rw [if_pos hg] at hev
          simp at hev
        · rw [if_neg hg] at hev
          simp only [List.nil_append] at hev
          obtain ⟨b, hb⟩ := mem_indexLoop_invokeIndex i.dryrun c.2 _ hev
          cases hb

/-- Every transitive dependency of a selected package is started: the
closure property of `maybeStart` recursion. -/
theorem started_of_reachable (deps : String → List String) (args : List String)
    {p q : String} (hp : p ∈ args)
    (h : Relation.ReflTransGen (fun a b => b ∈ deps a) p q) :
    Started deps args q := by
  induction h with
  | refl => exact Started.select hp
  | tail _ hstep ih => exact Started.dep ih hstep

/-- `aggStep` always removes the received package from `todos`
(source line 323), whatever the outcome. -/
theorem aggStep_todos (s : AggState) (c : Completion) :
    (aggStep s c).todos = s.todos.erase c.pkg := by
  unfold aggStep
  cases c.err <;> simp only
  · by_cases hs : c.skipped <;> simp [hs]

theorem aggStep_count (s : AggState) (c : Completion) :
    (aggStep s c).count = s.count := by
  unfold aggStep
  cases c.err <;> simp only
  · by_cases hs : c.skipped <;> simp [hs]

/-- One aggregation step appends exactly one entry to the error list on
an error completion and leaves it unchanged otherwise. -/
theorem aggStep_errs_length (s : AggState) (c : Completion) :
    (aggStep s c).errs.length
      = s.errs.length + (if c.err.isSome then 1 else 0) := by
  unfold aggStep
  cases c.err with
  | some e => simp
  | none =>
    by_cases hs : c.skipped <;> simp [hs]

/-- The receive loop consumes at least one message per package it
removes from `todos`: the consumed count plus the leftover `todos` bound
the initial `todos` length. -/
theorem aggLoop_todos_length (cs : List Completion) (s : AggState) :
    s.todos.length ≤ (aggLoop s cs).2 + (aggLoop s cs).1.todos.length := by
  induction cs generalizing s with
  | nil => simp [aggLoop]
  | cons c rest ih =>
    unfold aggLoop
    by_cases h : s.todos.isEmpty
    · rw [if_pos h]
      simp
    · rw [if_neg h]
      simp only
      have h1 := ih (aggStep s c)
      have h2 : s.todos.length ≤ (aggStep s c).todos.length + 1 := by
        rw [aggStep_todos]
        by_cases hm : c.pkg ∈ s.todos
        · rw [List.length_erase_of_mem hm]
          omega
        · rw [List.erase_of_not_mem hm]
          omega
      omega

/-- The collected error count equals the number of error completions in
the consumed prefix of the arrival order. -/
theorem aggLoop_errs_length (cs : List Completion) (s : AggState) :
    (aggLoop s cs).1.errs.length
      = s.errs.length
        + (cs.take (aggLoop s cs).2).countP (fun c => c.err.isSome) := by
  induction cs generalizing s with
  | nil => simp [aggLoop]
  | cons c rest ih =>
    unfold aggLoop
    by_cases h : s.todos.isEmpty
    · rw [if_pos h]
      simp
    · rw [if_neg h]
      simp only
      rw [List.take_succ_cons, List.countP_cons]
      have h1 := ih (aggStep s c)
      have h2 := aggStep_errs_length s c
      by_cases hc : c.err.isSome <;> simp only [hc, if_true, if_false] at h2 ⊢ <;> omega

/-! ## The specified progress log

A second description of the aggregator's log, following the
specification's words: on an error completion log `Failed to build X
(K/N)` with `K` the number of error completions so far; on a built
completion first flush a pending skipped counter, then log `Finished
building X (K'/N)` with `K'` the number of non-error completions so far;
skipped completions only bump the counter; a trailing nonzero counter is
flushed at the end.  The arguments track errors so far (`e`), non-error
completions so far (`ne`) and the pending skipped counter (`pend`). -/
def specAggLog (n : Nat) : List Completion → Nat → Nat → Nat → List LogLine
  | [], _, _, pend =>
    if pend != 0 then [LogLine.skippedSummary pend] else []
  | c :: rest, e, ne, pend =>
    match c.err with
    | some _ => LogLine.failed c.pkg (e + 1) n :: specAggLog n rest (e + 1) ne pend
    | none =>
      if c.skipped then specAggLog n rest e (ne + 1) (pend + 1)
      else
        (if pend != 0 then [LogLine.skippedSummary pend] else []) ++
          LogLine.finished c.pkg (ne + 1) n :: specAggLog n rest e (ne + 1) 0

/-- The final flush of a trailing skipped counter (source lines
344-346). -/
def flushLog (s : AggState) : List LogLine :=
  if s.skipped != 0 then s.log ++ [LogLine.skippedSummary s.skipped] else s.log

/-- Refinement of the aggregation loop's log against the specified
description, generalized over the loop state: when the outstanding set
is exactly (a permutation of) the packages of the arrival list, the
emitted log, trailing flush included, is the specified one. -/
theorem aggLoop_log_spec (cs : List Completion) (s : AggState) (n e ne : Nat)
    (hperm : s.todos.Perm (cs.map (fun c => c.pkg)))
    (hcount : s.count = n)
    (herrs : s.errs.length = e)
    (hbal : e + ne + s.todos.length = n) :
    flushLog (aggLoop s cs).1 = s.log ++ specAggLog n cs e ne s.skipped := by
  induction cs generalizing s e ne with
  | nil =>
    have htodos : s.todos = [] := by simpa using hperm
    simp only [aggLoop, flushLog, specAggLog]
    by_cases hs : s.skipped != 0
    · rw [if_pos hs, if_pos hs]
    · rw [if_neg hs, if_neg hs]
      simp
  | cons c rest ih =>
    have hmem : c.pkg ∈ s.todos := hperm.mem_iff.mpr (by simp)
    have hne : ¬s.todos.isEmpty := by
      cases ht : s.todos
      · rw [ht] at hmem; simp at hmem
      · simp [ht]
    have hlen : s.todos.length = rest.length + 1 := by
      have := hperm.length_eq
      simpa using this
    have hperm' : (s.todos.erase c.pkg).Perm (rest.map (fun c => c.pkg)) := by
      have h1 := hperm.erase c.pkg
      rwa [show ((c :: rest).map (fun c => c.pkg)).erase c.pkg
          = rest.map (fun c => c.pkg) from by simp [List.erase_cons_head]] at h1
    have hlen' : (s.todos.erase c.pkg).length = rest.length := by
      rw [List.length_erase_of_mem hmem, hlen]
      omega
    unfold aggLoop
    rw [if_neg hne]
    simp only
    cases hce : c.err with
    | some err =>
      have hstep : aggStep s c =
          { todos := s.todos.erase c.pkg, count := s.count,
            errs := s.errs ++ [wrapErr c.pkg err], skipped := s.skipped,
            log := s.log ++ [LogLine.failed c.pkg (s.errs.length + 1) s.count] } := by
        unfold aggStep
        rw [hce]
        simp
      rw [ih (aggStep s c) (e + 1) ne
        (by rw [hstep]; simpa using hperm')
        (by rw [hstep]; exact hcount)
        (by rw [hstep]; simp [herrs])
        (by rw [hstep]; simp only; rw [hlen']; omega)]
      rw [hstep]
      simp only [specAggLog, hce, herrs, hcount, List.append_assoc, List.cons_append,
        List.nil_append]
    | none =>
      by_cases hsk : c.skipped
      · have hstep : aggStep s c =
            { todos := s.todos.erase c.pkg, count := s.count, errs := s.errs,
              skipped := s.skipped + 1, log := s.log } := by
          unfold aggStep
          rw [hce]
          simp [hsk]
        rw [ih (aggStep s c) e (ne + 1)
          (by rw [hstep]; simpa using hperm')
          (by rw [hstep]; exact hcount)
          (by rw [hstep]; exact herrs)
          (by rw [hstep]; simp only; rw [hlen']; omega)]
        rw [hstep]
        simp only [specAggLog, hce, hsk, if_true]
      · have hk : s.count - ((s.todos.erase c.pkg).length + s.errs.length) = ne + 1 := by
          rw [hlen', herrs, hcount]
          omega
        have hstep : aggStep s c =
            { todos := s.todos.erase c.pkg, count := s.count, errs := s.errs,
              skipped := 0,
              log := (if s.skipped != 0 then
                  s.log ++ [LogLine.skippedSummary s.skipped] else s.log) ++
                [LogLine.finished c.pkg (ne + 1) s.count] } := by
          unfold aggStep
          rw [hce]
          simp only [hsk, Bool.false_eq_true, if_false]
          rw [hk]
        rw [ih (aggStep s c) e (ne + 1)
          (by rw [hstep]; simpa using hperm')
          (by rw [hstep]; exact hcount)
          (by rw [hstep]; exact herrs)
          (by rw [hstep]; simp only; rw [hlen']; omega)]
        rw [hstep]
        simp only [specAggLog, hce, hsk, if_false, hcount]
        by_cases hs : s.skipped != 0
        · rw [if_pos hs, if_pos hs]
          simp [List.append_assoc]
        · rw [if_neg hs, if_neg hs]
          simp [List.append_assoc]

/-- The initial state of the aggregation loop for a selection. -/
def aggInit (selected : List String) : AggState :=
  { todos := selected, count := selected.length, errs := [], skipped := 0, log := [] }

theorem buildAllAgg_todos (cancelled : Bool) (cause : String) (selected : List String)
    (cs : List Completion) :
    (buildAllAgg cancelled cause selected cs).1.todos
      = (aggLoop (aggInit selected) cs).1.todos := by
  simp [buildAllAgg, aggInit]

theorem buildAllAgg_consumed (cancelled : Bool) (cause : String) (selected : List String)
    (cs : List Completion) :
    (buildAllAgg cancelled cause selected cs).2.1 = (aggLoop (aggInit selected) cs).2 := by
  simp [buildAllAgg, aggInit]

theorem buildAllAgg_log (cancelled : Bool) (cause : String) (selected : List String)
    (cs : List Completion) :
    (buildAllAgg cancelled cause selected cs).1.log
      = flushLog (aggLoop (aggInit selected) cs).1 := by
  simp [buildAllAgg, aggInit, flushLog]

theorem buildAllAgg_ret_cancelled (cause : String) (selected : List String)
    (cs : List Completion) :
    (buildAllAgg true cause selected cs).2.2
      = some ("failed to build "
          ++ toString (aggLoop (aggInit selected) cs).1.errs.length
          ++ " packages: " ++ cause) := by
  simp [buildAllAgg, aggInit]

/-! ## Claim theorems -/

/-- C1: for every job cap J ≥ 1 configured via `--jobs` (0 defaulting to
the hardware thread count), in every reachable state of the scheduler the
number of Tasks concurrently inside the build-step region is at most J;
the channel occupancy equals that number (each such Task holds exactly
one permit), and a Task inside the region has all its dependency waits
resolved. -/
theorem jobcap_invariant (jobs procs n : Nat) (deps : Fin n → List (Fin n))
    (s : SchedState n) (hJ : 1 ≤ effectiveJobs jobs procs)
    (h : SchedReachable (effectiveJobs jobs procs) deps s) :
    buildingCount s.phase ≤ effectiveJobs jobs procs ∧
    s.permits = buildingCount s.phase ∧
    ∀ t : Fin n, s.phase t = Phase.building → ∀ d ∈ deps t, s.phase d = Phase.finished := by
  obtain ⟨h1, h2, h3⟩ := schedInv_reachable _ deps h
  exact ⟨by omega, h1, h3⟩

/-- Witness for C1: a two-Task system with `--jobs 0` on a 2-thread
machine, checked at the initial state. -/
theorem jobcap_invariant_witness :
    1 ≤ effectiveJobs 0 2 ∧
    (buildingCount (SchedState.init 2).phase ≤ effectiveJobs 0 2 ∧
      (SchedState.init 2).permits = buildingCount (SchedState.init 2).phase ∧
      ∀ t : Fin 2, (SchedState.init 2).phase t = Phase.building →
        ∀ d ∈ ([] : List (Fin 2)), (SchedState.init 2).phase d = Phase.finished) :=
  ⟨by decide, jobcap_invariant 0 2 2 (fun _ => []) (SchedState.init 2) (by decide)
    Relation.ReflTransGen.refl⟩

theorem startModel_depErr {s : StartInput} {e : String}
    (h : firstErr s.depErrs = some e) :
    startModel s =
      { err := some e, skipped := false,
        events := [Ev.markDone, Ev.broadcast, Ev.send] } := by
  unfold startModel
  rw [h]

theorem startModel_noDepErr {s : StartInput} (h : firstErr s.depErrs = none) :
    startModel s =
      { err := (buildModel s.bi).err, skipped := (buildModel s.bi).skipped,
        events := Ev.acquirePermit :: (buildModel s.bi).events ++
          [Ev.releasePermit, Ev.markDone, Ev.broadcast, Ev.send] } := by
  unfold startModel
  rw [h]

/-- C2: every Task execution emits exactly one send on the completion
channel, the send is the last event and is preceded (in that order) by
marking the Task done and broadcasting its latch, neither of which occurs
earlier in the trace; this holds on every exit path, and an
already-started Task (`maybeStart` no-op) emits nothing. -/
theorem start_sends_exactly_once (s : StartInput) :
    (startModel s).events.count Ev.send = 1 ∧
    (∃ pre, (startModel s).events = pre ++ [Ev.markDone, Ev.broadcast, Ev.send] ∧
      Ev.send ∉ pre ∧ Ev.markDone ∉ pre ∧ Ev.broadcast ∉ pre) ∧
    maybeStartEvents true s = [] ∧
    maybeStartEvents false s = (startModel s).events := by
  have hwork : ∀ ev, ev ∈ (buildModel s.bi).events →
      ev ≠ Ev.send ∧ ev ≠ Ev.markDone ∧ ev ≠ Ev.broadcast := by
    intro ev hev
    have := buildModel_isWork s.bi ev hev
    refine ⟨?_, ?_, ?_⟩ <;> rintro rfl <;> simp [Ev.isWork] at this
  refine ⟨?_, ?_, rfl, rfl⟩
  · cases hf : firstErr s.depErrs with
    | some e =>
      rw [startModel_depErr hf]
      simp
    | none =>
      rw [startModel_noDepErr hf]
      have h0 : (buildModel s.bi).events.count Ev.send = 0 :=
        List.count_eq_zero.mpr (fun hmem => (hwork _ hmem).1 rfl)
      simp [List.count_cons, List.count_append, h0]
  · cases hf : firstErr s.depErrs with
    | some e =>
      rw [startModel_depErr hf]
      exact ⟨[], by simp, by simp, by simp, by simp⟩
    | none =>
      rw [startModel_noDepErr hf]
      refine ⟨Ev.acquirePermit :: (buildModel s.bi).events ++ [Ev.releasePermit],
        by simp, ?_, ?_, ?_⟩
      · intro hmem
        rcases List.mem_cons.mp hmem with h | h
        · exact Ev.noConfusion h
        · rcases List.mem_append.mp h with h | h
          · exact (hwork _ h).1 rfl
          · simp at h
      · intro hmem
        rcases List.mem_cons.mp hmem with h | h
        · exact Ev.noConfusion h
        · rcases List.mem_append.mp h with h | h
          · exact (hwork _ h).2.1 rfl
          · simp at h
      · intro hmem
        rcases List.mem_cons.mp hmem with h | h
        · exact Ev.noConfusion h
        · rcases List.mem_append.mp h with h | h
          · exact (hwork _ h).2.2 rfl
          · simp at h

/-- A concrete Task execution under a cancelled root context: no
dependency errors, one arch needing a build, not a dry run. -/
def cancelledInput : StartInput :=
  { depErrs := [],
    bi := { archs := ["x86_64"], targets := [], published := fun _ => false,
            localBuilt := fun _ => false, dryrun := false, generateIndex := true,
            cancelled := true, driverResult := fun _ => none, logfile := fun _ => "" } }

/-- C3 counterexample: `task.start` does not check the context before
acquiring a job permit — under a cancelled context whose dependency
waits all resolved, the permit is still acquired, contradicting the
claim that no new permit is acquired after cancellation. -/
theorem cancelled_still_acquires_permit :
    cancelledInput.bi.cancelled = true ∧
    Ev.acquirePermit ∈ (startModel cancelledInput).events := by
  exact ⟨rfl, by decide⟩

/-- C3 amended: under a cancelled context the build driver is never
invoked — `task.buildArch` checks `ctx.Err()` before constructing the
runner or the driver — although the job permit is still acquired and the
build step still entered. -/
theorem cancelled_no_driver_invoked (s : StartInput) (hcan : s.bi.cancelled = true)
    (a : String) : Ev.invokeDriver a ∉ (startModel s).events := by
  cases hf : firstErr s.depErrs with
  | some e =>
    rw [startModel_depErr hf]
    simp
  | none =>
    rw [startModel_noDepErr hf]
    intro hmem
    rcases List.mem_cons.mp hmem with h | h
    · exact Ev.noConfusion h
    · rcases List.mem_append.mp h with h | h
      · exact buildModel_cancelled_no_driver s.bi hcan a h
      · simp at h

/-- Witness for the amended C3 theorem at the concrete cancelled
execution. -/
theorem cancelled_no_driver_invoked_witness :
    Ev.invokeDriver "x86_64" ∉ (startModel cancelledInput).events :=
  cancelled_no_driver_invoked cancelledInput rfl "x86_64"

/-- An arrival order in which a non-selected dependency completes before
the single selected package: selection `["b"]` with `b` depending on
`a`. -/
def depFirstArrivals : List Completion :=
  [{ pkg := "a", err := none, skipped := false },
   { pkg := "b", err := none, skipped := false }]

/-- C4 counterexample: with selection `["b"]` whose dependency `a`
completes first, the aggregation loop consumes 2 messages, not
`|args| = 1`, and the non-selected `a` contributes a `Finished building`
log line. -/
theorem selection_drains_more_than_args :
    (buildAllAgg false "" ["b"] depFirstArrivals).2.1 = 2 ∧
    (buildAllAgg false "" ["b"] depFirstArrivals).1.todos = [] ∧
    (buildAllAgg false "" ["b"] depFirstArrivals).2.1 ≠ (["b"] : List String).length ∧
    LogLine.finished "a" 0 1 ∈ (buildAllAgg false "" ["b"] depFirstArrivals).1.log := by
  exact ⟨by decide, by decide, by decide, by decide⟩

/-- C4 amended: `run(args)` starts every transitive dependency of the
selection, and the aggregation loop consumes completions in arrival
order until every selected Task's completion has been consumed — at
least `|args|` messages, possibly more — with any consumed completion
contributing its error-list entry or `Finished building` log line
whether or not its Task is selected. -/
theorem lazy_start_and_drain :
    (∀ (deps : String → List String) (args : List String) (p q : String),
      p ∈ args → Relation.ReflTransGen (fun a b => b ∈ deps a) p q →
      Started deps args q) ∧
    (∀ (cancelled : Bool) (cause : String) (selected : List String)
      (cs : List Completion),
      (buildAllAgg cancelled cause selected cs).1.todos = [] →
      selected.length ≤ (buildAllAgg cancelled cause selected cs).2.1) ∧
    (∀ (ag : AggState) (c : Completion) (e : String), c.err = some e →
      (aggStep ag c).errs = ag.errs ++ [wrapErr c.pkg e]) ∧
    (∀ (ag : AggState) (c : Completion), c.err = none → c.skipped = false →
      ∃ l, (aggStep ag c).log = l ++
        [LogLine.finished c.pkg
          (ag.count - ((ag.todos.erase c.pkg).length + ag.errs.length)) ag.count]) := by
  refine ⟨fun deps args p q hp h => started_of_reachable deps args hp h, ?_, ?_, ?_⟩
  · intro cancelled cause selected cs h
    rw [buildAllAgg_todos] at h
    rw [buildAllAgg_consumed]
    have hb := aggLoop_todos_length cs (aggInit selected)
    rw [h] at hb
    simpa [aggInit] using hb
  · intro ag c e hc
    unfold aggStep
    rw [hc]
  · intro ag c hc hsk
    refine ⟨if ag.skipped != 0 then ag.log ++ [LogLine.skippedSummary ag.skipped]
      else ag.log, ?_⟩
    unfold aggStep
    rw [hc]
    simp [hsk]

/-- Witness for the amended C4 theorem: the dependency chain `b → a`
with selection `["b"]` starts `a`; and the concrete two-message run
drains the selection consuming at least one message. -/
theorem lazy_start_and_drain_witness :
    Started (fun p => if p = "b" then ["a"] else []) ["b"] "a" ∧
    (["b"] : List String).length ≤ (buildAllAgg false "" ["b"] depFirstArrivals).2.1 ∧
    (aggStep (aggInit ["b"]) { pkg := "x", err := some "boom", skipped := false }).errs
      = [] ++ [wrapErr "x" "boom"] :=
  ⟨lazy_start_and_drain.1 (fun p => if p = "b" then ["a"] else []) ["b"] "b" "a"
      (by decide)
      (Relation.ReflTransGen.single (by decide)),
    lazy_start_and_drain.2.1 false "" ["b"] depFirstArrivals (by decide),
    lazy_start_and_drain.2.2.1 (aggInit ["b"])
      { pkg := "x", err := some "boom", skipped := false } "boom" rfl⟩

/-- C5: for every Task and every effective architecture (the
intersection of the global arch list with the recipe's target
architectures), the classification records an already-published arch in
neither set, an already-built-locally arch in `needsIndex` only, and any
other arch in both; and when both sets are empty the Task's outcome is
success-skipped, with no build driver or index generator invocation. -/
theorem build_classification (i : BuildInput) :
    (∀ a, a ∈ (classify (filterArchs i.archs i.targets) i.published i.localBuilt).2 ↔
      (a ∈ filterArchs i.archs i.targets ∧ i.published a = false)) ∧
    (∀ a, a ∈ (classify (filterArchs i.archs i.targets) i.published i.localBuilt).1 ↔
      (a ∈ filterArchs i.archs i.targets ∧ i.published a = false ∧
        i.localBuilt a = false)) ∧
    ((classify (filterArchs i.archs i.targets) i.published i.localBuilt).1 = [] ∧
      (classify (filterArchs i.archs i.targets) i.published i.localBuilt).2 = [] →
      buildModel i = { err := none, skipped := true, events := [] }) := by
  refine ⟨fun a => mem_classify_needsIndex _ _ _ a,
    fun a => mem_classify_needsBuild _ _ _ a, ?_⟩
  rintro ⟨h1, h2⟩
  simp [buildModel, h1, h2]

/-- Witness for C5 at a concrete Task whose two arches are both already
published: both sets are empty and the outcome is success-skipped. -/
def publishedAllInput : BuildInput :=
  { archs := ["x86_64", "aarch64"], targets := [],
    published := fun _ => true, localBuilt := fun _ => false,
    dryrun := false, generateIndex := true, cancelled := false,
    driverResult := fun _ => none, logfile := fun _ => "" }

theorem build_classification_witness :
    ("x86_64" ∈ (classify (filterArchs publishedAllInput.archs publishedAllInput.targets)
        publishedAllInput.published publishedAllInput.localBuilt).2 ↔
      ("x86_64" ∈ filterArchs publishedAllInput.archs publishedAllInput.targets ∧
        publishedAllInput.published "x86_64" = false)) ∧
    buildModel publishedAllInput = { err := none, skipped := true, events := [] } :=
  ⟨(build_classification publishedAllInput).1 "x86_64",
    (build_classification publishedAllInput).2.2 ⟨by decide, by decide⟩⟩

/-- C6 counterexample: over the selection `["b"]` of size 1, the
consumed sequence `[a built, b built]` makes the aggregator log
`Finished building a (0/1)` — the numerator is
`count-(len(todos)+len(errs))`, not the number of non-error completions
consumed so far, which is 1 — so the emitted log differs from the
specified one. -/
theorem progress_log_counterexample :
    (buildAllAgg false "" ["b"] depFirstArrivals).1.log
      = [LogLine.finished "a" 0 1, LogLine.finished "b" 1 1] ∧
    specAggLog (["b"] : List String).length depFirstArrivals 0 0 0
      = [LogLine.finished "a" 1 1, LogLine.finished "b" 2 1] ∧
    (buildAllAgg false "" ["b"] depFirstArrivals).1.log
      ≠ specAggLog (["b"] : List String).length depFirstArrivals 0 0 0 := by
  exact ⟨by decide, by decide, by decide⟩

/-- C6 amended: when every consumed completion belongs to the selection
and each selected Task completes exactly once (the arrival order is a
permutation of the selection), the aggregator's log is exactly the
specified one: `Failed to build X (K/N)` with K the errors so far,
`Skipped building M packages` flushes before a built completion and at
the end, and `Finished building X (K'/N)` with K' the non-error
completions so far. -/
theorem aggregator_log_spec (cancelled : Bool) (cause : String)
    (selected : List String) (cs : List Completion)
    (h : selected.Perm (cs.map (fun c => c.pkg))) :
    (buildAllAgg cancelled cause selected cs).1.log
      = specAggLog selected.length cs 0 0 0 := by
  rw [buildAllAgg_log]
  have hs := aggLoop_log_spec cs (aggInit selected) selected.length 0 0 h rfl rfl
    (by simp [aggInit])
  simpa [aggInit] using hs

/-- Witness for the amended C6 theorem: a skipped completion followed by
an error completion produces the failed line and the trailing skipped
flush. -/
theorem aggregator_log_spec_witness :
    (buildAllAgg false "" ["x", "y"]
        [{ pkg := "y", err := none, skipped := true },
         { pkg := "x", err := some "boom", skipped := false }]).1.log
      = specAggLog (["x", "y"] : List String).length
          [{ pkg := "y", err := none, skipped := true },
           { pkg := "x", err := some "boom", skipped := false }] 0 0 0 :=
  aggregator_log_spec false "" ["x", "y"]
    [{ pkg := "y", err := none, skipped := true },
     { pkg := "x", err := some "boom", skipped := false }] (by decide)

/-- C7 counterexample: `filterArchs` tests only the first element of the
target list against `"all"`: for `T = ["all", "x86_64"]`, which is
neither empty nor `["all"]`, it returns all of `X` instead of the
claimed `X ∩ T`. -/
theorem filterArchs_all_first_counterexample :
    (["all", "x86_64"] : List String) ≠ [] ∧
    (["all", "x86_64"] : List String) ≠ ["all"] ∧
    filterArchs ["x86_64", "aarch64"] ["all", "x86_64"] = ["x86_64", "aarch64"] ∧
    filterArchs ["x86_64", "aarch64"] ["all", "x86_64"]
      ≠ ["x86_64", "aarch64"].filter
          (fun x => decide (x ∈ (["all", "x86_64"] : List String))) := by
  exact ⟨by decide, by decide, by decide, by decide⟩

/-- C7 amended: `filterArchs(X, T)` returns all of `X` when `T` is empty
or `T`'s first element is `"all"` (not only when `T` equals `["all"]`),
and otherwise returns exactly the elements of `X` that occur in `T`,
preserving `X`'s order. -/
theorem filterArchs_spec (X T : List String) :
    (T = [] → filterArchs X T = X) ∧
    (T.head? = some "all" → filterArchs X T = X) ∧
    (T ≠ [] → T.head? ≠ some "all" →
      filterArchs X T = X.filter (fun x => decide (x ∈ T))) := by
  refine ⟨?_, ?_, ?_⟩
  · rintro rfl
    simp [filterArchs]
  · intro h
    cases T with
    | nil => simp at h
    | cons t ts =>
      simp only [List.head?_cons, Option.some.injEq] at h
      subst h
      simp [filterArchs]
  · intro h1 h2
    cases T with
    | nil => exact absurd rfl h1
    | cons t ts =>
      have ht : t ≠ "all" := fun hh => h2 (by simp [hh])
      have hcond : ((t :: ts).isEmpty || (t :: ts).head! == "all") = false := by
        simp [List.head!, ht]
      unfold filterArchs
      rw [hcond]
      simp only [Bool.false_eq_true, if_false]
      apply List.filter_congr
      intro x hx
      by_cases hm : x ∈ t :: ts
      · rw [decide_eq_true hm]
        exact List.any_eq_true.mpr ⟨x, hm, by simp⟩
      · rw [decide_eq_false hm]
        rw [List.any_eq_false]
        intro w hw
        simp only [beq_iff_eq]
        rintro rfl
        exact hm hw

/-- Witness for the amended C7 theorem at concrete inputs for all three
branches. -/
theorem filterArchs_spec_witness :
    filterArchs ["x86_64", "aarch64"] [] = ["x86_64", "aarch64"] ∧
    filterArchs ["x86_64", "aarch64"] ["all"] = ["x86_64", "aarch64"] ∧
    filterArchs ["x86_64", "aarch64"] ["aarch64", "armv7"]
      = ["x86_64", "aarch64"].filter
          (fun x => decide (x ∈ (["aarch64", "armv7"] : List String))) :=
  ⟨(filterArchs_spec ["x86_64", "aarch64"] []).1 rfl,
    (filterArchs_spec ["x86_64", "aarch64"] ["all"]).2.1 rfl,
    (filterArchs_spec ["x86_64", "aarch64"] ["aarch64", "armv7"]).2.2
      (by decide) (by decide)⟩

/-- C8: a Task with an errored dependency adopts that dependency's error
verbatim (unwrapped) as its own outcome, acquires no job permit, runs no
build step, and the error of any error completion is appended to the
aggregate error list. -/
theorem dep_error_adopted (s : StartInput) (e : String)
    (h : firstErr s.depErrs = some e) :
    (startModel s).err = some e ∧
    Ev.acquirePermit ∉ (startModel s).events ∧
    (∀ a, Ev.invokeDriver a ∉ (startModel s).events) ∧
    (∀ (ag : AggState) (c : Completion), c.err = some e →
      (aggStep ag c).errs = ag.errs ++ [wrapErr c.pkg e]) := by
  rw [startModel_depErr h]
  refine ⟨rfl, by simp, fun a => by simp, ?_⟩
  intro ag c hc
  unfold aggStep
  rw [hc]

/-- A concrete Task whose second dependency wait returns an error. -/
def depErrInput : StartInput :=
  { depErrs := [none, some "dependency failed"],
    bi := { archs := ["x86_64"], targets := [], published := fun _ => false,
            localBuilt := fun _ => false, dryrun := false, generateIndex := true,
            cancelled := false, driverResult := fun _ => none,
            logfile := fun _ => "" } }

/-- Witness for C8 at the concrete errored-dependency Task. -/
theorem dep_error_adopted_witness :
    (startModel depErrInput).err = some "dependency failed" ∧
    Ev.acquirePermit ∉ (startModel depErrInput).events ∧
    (∀ a, Ev.invokeDriver a ∉ (startModel depErrInput).events) ∧
    (∀ (ag : AggState) (c : Completion), c.err = some "dependency failed" →
      (aggStep ag c).errs = ag.errs ++ [wrapErr c.pkg "dependency failed"]) :=
  dep_error_adopted depErrInput "dependency failed" rfl

/-- The ten independent selected packages of the cancellation scenario. -/
def tenPackages : List String :=
  ["p1", "p2", "p3", "p4", "p5", "p6", "p7", "p8", "p9", "p10"]

/-- Arrivals for the cancellation scenario: two Tasks complete before the
cancellation, the remaining eight complete with the context error. -/
def cancelScenarioArrivals : List Completion :=
  [{ pkg := "p1", err := none, skipped := false },
   { pkg := "p2", err := none, skipped := false },
   { pkg := "p3", err := some "context canceled", skipped := false },
   { pkg := "p4", err := some "context canceled", skipped := false },
   { pkg := "p5", err := some "context canceled", skipped := false },
   { pkg := "p6", err := some "context canceled", skipped := false },
   { pkg := "p7", err := some "context canceled", skipped := false },
   { pkg := "p8", err := some "context canceled", skipped := false },
   { pkg := "p9", err := some "context canceled", skipped := false },
   { pkg := "p10", err := some "context canceled", skipped := false }]

/-- C9 counterexample: in the run of 10 independent selected packages
cancelled after 2 successful completions, the returned message counts
the collected errors (`len(errs)` = 8, source line 350), not the full
selected count 10 claimed by the specification. -/
theorem cancel_reports_error_count :
    (buildAllAgg true "context canceled" tenPackages cancelScenarioArrivals).2.2
      = some "failed to build 8 packages: context canceled" ∧
    (buildAllAgg true "context canceled" tenPackages cancelScenarioArrivals).2.2
      ≠ some "failed to build 10 packages: context canceled" ∧
    tenPackages.length = 10 := by
  exact ⟨by decide, by decide, by decide⟩

/-- C9 amended: under a cancelled context `buildAll` returns the single
error `failed to build N packages: <cancel cause>` without enumerating
the individual Task errors, where `N` is the number of error completions
consumed before the selection drained (not the selected count). -/
theorem cancel_error_message (cause : String) (selected : List String)
    (cs : List Completion) :
    (buildAllAgg true cause selected cs).2.2
      = some ("failed to build "
          ++ toString ((cs.take (buildAllAgg true cause selected cs).2.1).countP
              (fun c => c.err.isSome))
          ++ " packages: " ++ cause) := by
  rw [buildAllAgg_ret_cancelled, buildAllAgg_consumed]
  have h := aggLoop_errs_length cs (aggInit selected)
  rw [h]
  simp [aggInit]

/-- C10: the published-artifact map is keyed by the normalized
architecture name while the build step looks it up by the raw `--arch`
string, so for any arch string that is not a fixed point of the
normalization (such as `"amd64"`, normalizing to `"x86_64"`) the lookup
misses and the already-published skip never applies. -/
theorem published_skip_only_fixed_points (archs : List String)
    (fetched : String → List String) (a apkFile : String)
    (h : parseArchToAPK a ≠ a) :
    lookupExists (probeMap archs fetched) a apkFile = false := by
  unfold lookupExists
  cases hf : (probeMap archs fetched).find? (fun p => p.1 == a) with
  | none => rfl
  | some p =>
    exfalso
    have hmem : p ∈ probeMap archs fetched := List.mem_of_find?_eq_some hf
    have hpred := List.find?_some hf
    have hpa : p.1 = a := by simpa using hpred
    obtain ⟨b, hb, hpb⟩ := List.mem_map.mp hmem
    have hba : parseArchToAPK b = a := by
      rw [← hpb] at hpa
      exact hpa
    apply h
    rw [← hba, parseArchToAPK_idem]

/-- Witness for C10: with `--arch amd64` the artifact is declared in the
fetched remote index, yet the already-published lookup misses because
the map key is the normalized `"x86_64"`. -/
theorem published_skip_only_fixed_points_witness :
    parseArchToAPK "amd64" = "x86_64" ∧
    lookupExists (probeMap ["amd64"] (fun _ => ["foo-1.0-r0.apk"]))
      "amd64" "foo-1.0-r0.apk" = false :=
  ⟨by decide,
    published_skip_only_fixed_points ["amd64"] (fun _ => ["foo-1.0-r0.apk"])
      "amd64" "foo-1.0-r0.apk" (by decide)⟩

/-- Witness for C2 at the concrete errored-dependency Task. -/
theorem start_sends_exactly_once_witness :
    (startModel depErrInput).events.count Ev.send = 1 ∧
    (∃ pre, (startModel depErrInput).events
        = pre ++ [Ev.markDone, Ev.broadcast, Ev.send] ∧
      Ev.send ∉ pre ∧ Ev.markDone ∉ pre ∧ Ev.broadcast ∉ pre) ∧
    maybeStartEvents true depErrInput = [] ∧
    maybeStartEvents false depErrInput = (startModel depErrInput).events :=
  start_sends_exactly_once depErrInput

end Wolfictl


